import Mathlib

/-!
# Verification of the Number-system-converter repository

Shallow embedding of the two components the specification covers:

* the radix converter in js/converter.js (class NumberSystemConverter:
  handleInput, updateResults, showConversionError, clearResults, copyResults);
* the offline cache manager in sw.js (install / activate / fetch listeners,
  limitCacheSize, the cache-name constants).

Strings are modelled as List Char.  JavaScript numbers are modelled as Nat:
every quantity the converter manipulates is an unsigned integer obtained from
parseInt on a validated digit string, and the spec itself brackets values to
the platform safe-integer range, on which parseInt / Number.toString are
exact.  Promise chains are modelled with Except: a rejected promise is
Except.error, a fulfilled one Except.ok, and a .catch handler is an explicit
match on the two cases.
-/

/-! ## Radix converter (js/converter.js) -/

/-- The four number systems of the converter, the keys of the inputs and
results maps built in initializeElements. -/
inductive SourceType where
  | binary
  | octal
  | decimal
  | hexadecimal
deriving DecidableEq, Repr

/-- The radix passed to parseInt for each source type (lines 122, 127, 132,
137 of converter.js). -/
def radixOf : SourceType → Nat
  | .binary => 2
  | .octal => 8
  | .decimal => 10
  | .hexadecimal => 16

/-- Characters removed by String.prototype.trim.  We model the ASCII
whitespace and line-terminator characters plus NBSP; the converter's claims
only ever exercise these. -/
def jsIsWhitespace (c : Char) : Bool :=
  c == ' ' || c == '\t' || c == '\n' || c == '\r' ||
    c == '\x0b' || c == '\x0c' || c == ' '

/-- String.prototype.trim: strip leading and trailing whitespace. -/
def jsTrim (s : List Char) : List Char :=
  ((s.dropWhile jsIsWhitespace).reverse.dropWhile jsIsWhitespace).reverse

/-- String.prototype.toUpperCase on one character (ASCII range; the
converter's alphabets are ASCII and every non-ASCII character fails the
validation regexes either way). -/
def jsToUpperChar (c : Char) : Char :=
  if 'a' ≤ c ∧ c ≤ 'z' then Char.ofNat (c.toNat - 32) else c

/-- String.prototype.toLowerCase on one character (ASCII range). -/
def jsToLowerChar (c : Char) : Char :=
  if 'A' ≤ c ∧ c ≤ 'Z' then Char.ofNat (c.toNat + 32) else c

/-- The character class of the validation regex of each branch of the switch
in handleInput: binary [01], octal [0-7], decimal [0-9], hexadecimal
[0-9A-F] with the i flag (converter.js lines 121, 126, 131, 136). -/
def validChar : SourceType → Char → Bool
  | .binary, c => c == '0' || c == '1'
  | .octal, c => '0' ≤ c && c ≤ '7'
  | .decimal, c => '0' ≤ c && c ≤ '9'
  | .hexadecimal, c =>
      ('0' ≤ c && c ≤ '9') || ('A' ≤ c && c ≤ 'F') || ('a' ≤ c && c ≤ 'f')

/-- The full regex test of handleInput's switch: each regex is anchored
(a caret, one-or-more character class, dollar), so a string matches iff it is
non-empty and every character is in the class. -/
def matchesPattern (t : SourceType) (s : List Char) : Bool :=
  !s.isEmpty && s.all (validChar t)

/-- Numeric value parseInt assigns to one digit character: 0-9, then a-z and
A-Z as 10 to 35.  Validated strings never reach the final catch-all. -/
def digitVal (c : Char) : Nat :=
  if '0' ≤ c ∧ c ≤ '9' then c.toNat - 48
  else if 'a' ≤ c ∧ c ≤ 'z' then c.toNat - 87
  else if 'A' ≤ c ∧ c ≤ 'Z' then c.toNat - 55
  else 0

/-- parseInt(value, base) on a validated digit string: positional left fold.
Exact on the unsigned integers the spec's data model assigns to the
converter. -/
def parseIntDigits (base : Nat) (s : List Char) : Nat :=
  s.foldl (fun acc c => acc * base + digitVal c) 0

/-- Digit alphabet of Number.prototype.toString(radix): 0-9 then lowercase
a-z. -/
def toStringDigitChar (d : Nat) : Char :=
  if d < 10 then Char.ofNat (48 + d) else Char.ofNat (87 + d)

/-- Digit-accumulation loop of Number.prototype.toString(radix), most
significant digit first.  The fuel argument is a Lean termination device
only: it strictly bounds the number of divisions, and callers always pass
enough (the digit count of n is at most n for n ≥ 1 and radix ≥ 2). -/
def toDigitsFuel : Nat → Nat → Nat → List Char
  | 0, _, _ => []
  | fuel + 1, base, n =>
      if n = 0 then []
      else toDigitsFuel fuel base (n / base) ++ [toStringDigitChar (n % base)]

/-- Number.prototype.toString(radix) for an unsigned integer: "0" for zero,
otherwise the base-radix digits most significant first, letters lowercase. -/
def jsNatToString (base n : Nat) : List Char :=
  if n = 0 then ['0'] else toDigitsFuel n base n

/-- The object literal built by updateResults (converter.js lines 164-169):
the one decimal value rendered in all four radixes, hexadecimal uppercased. -/
structure Conversions where
  binary : List Char
  octal : List Char
  decimal : List Char
  hexadecimal : List Char
deriving DecidableEq, Repr

/-- updateResults' conversions object for a given decimal value. -/
def computeConversions (decimalValue : Nat) : Conversions where
  binary := jsNatToString 2 decimalValue
  octal := jsNatToString 8 decimalValue
  decimal := jsNatToString 10 decimalValue
  hexadecimal := (jsNatToString 16 decimalValue).map jsToUpperChar

/-- Outcome of one handleInput call: the empty-input early return (line 110),
the catch branch (line 152), or a successful parse carrying the decimal
intermediate value passed to updateResults (line 150). -/
inductive HandleOutcome where
  | cleared
  | errored
  | converted (decimalValue : Nat)
deriving DecidableEq, Repr

/-- handleInput (converter.js lines 105-156): trim and uppercase the raw
value, clear on empty, validate against the branch regex, parse with
parseInt, reject a negative parse (impossible for a validated digit string
under exact integer semantics, kept as written), else hand the decimal value
to updateResults. -/
def handleInput (sourceType : SourceType) (value : List Char) : HandleOutcome :=
  let v := (jsTrim value).map jsToUpperChar
  if v.isEmpty then .cleared
  else if matchesPattern sourceType v then
    let decimalValue := parseIntDigits (radixOf sourceType) v
    if decimalValue < 0 then .errored else .converted decimalValue
  else .errored

/-- One result display element: its textContent and whether the error CSS
class is present. -/
structure FieldState where
  text : List Char
  hasErrorClass : Bool
deriving DecidableEq, Repr

/-- The converter's mutable page state: the four result elements and the
currentValues copy buffer (this.currentValues). -/
structure ConvState where
  binaryR : FieldState
  octalR : FieldState
  decimalR : FieldState
  hexadecimalR : FieldState
  currentValues : Option Conversions
deriving DecidableEq, Repr

/-- clearResults (converter.js lines 206-212): every result shows the
placeholder dash with the error class removed, and currentValues is nulled. -/
def clearResults (_s : ConvState) : ConvState where
  binaryR := ⟨['-'], false⟩
  octalR := ⟨['-'], false⟩
  decimalR := ⟨['-'], false⟩
  hexadecimalR := ⟨['-'], false⟩
  currentValues := none

/-- showConversionError (converter.js lines 184-190): every result shows the
Error marker with the error class added, and currentValues is nulled. -/
def showConversionError (_s : ConvState) : ConvState where
  binaryR := ⟨"Error".data, true⟩
  octalR := ⟨"Error".data, true⟩
  decimalR := ⟨"Error".data, true⟩
  hexadecimalR := ⟨"Error".data, true⟩
  currentValues := none

/-- updateResults (converter.js lines 163-179): render the decimal value in
all four systems, clear the error class, and store the conversions object in
currentValues for copying. -/
def updateResults (decimalValue : Nat) (_s : ConvState) : ConvState :=
  let conversions := computeConversions decimalValue
  { binaryR := ⟨conversions.binary, false⟩
    octalR := ⟨conversions.octal, false⟩
    decimalR := ⟨conversions.decimal, false⟩
    hexadecimalR := ⟨conversions.hexadecimal, false⟩
    currentValues := some conversions }

/-- The state effect of one handleInput call, dispatching on its outcome
exactly as converter.js lines 110-155 call clearResults,
updateResults(decimalValue) and showConversionError. -/
def handleInputDom (sourceType : SourceType) (value : List Char)
    (s : ConvState) : ConvState :=
  match handleInput sourceType value with
  | .cleared => clearResults s
  | .errored => showConversionError s
  | .converted decimalValue => updateResults decimalValue s

/-- Result of clicking copy (copyResults, converter.js lines 217-238): with a
null currentValues the method reports that there is nothing to copy and
returns; otherwise it serializes the four stored values as Label-colon-value
lines joined by newlines. -/
inductive CopyOutcome where
  | noResults
  | copied (text : List Char)
deriving DecidableEq, Repr

/-- copyResults (converter.js lines 217-238), up to the clipboard write
itself. -/
def copyResults (s : ConvState) : CopyOutcome :=
  match s.currentValues with
  | none => .noResults
  | some c =>
      .copied <| "Binary: ".data ++ c.binary ++ ['\n'] ++
        "Octal: ".data ++ c.octal ++ ['\n'] ++
        "Decimal: ".data ++ c.decimal ++ ['\n'] ++
        "Hexadecimal: ".data ++ c.hexadecimal

/-- The page-level operations that mutate the result state: an input event in
one of the four fields, and the clear button (clearAll, which calls
clearResults; the input-box part of clearAll is not displayed state we
track).  copyResults reads but never writes the state. -/
inductive ConverterOp where
  | input (sourceType : SourceType) (value : List Char)
  | clearClick
deriving DecidableEq, Repr

/-- State after the constructor ran (it ends in clearAll, hence
clearResults). -/
def initConvState : ConvState where
  binaryR := ⟨['-'], false⟩
  octalR := ⟨['-'], false⟩
  decimalR := ⟨['-'], false⟩
  hexadecimalR := ⟨['-'], false⟩
  currentValues := none

/-- One event-loop step of the converter page. -/
def convStep (s : ConvState) : ConverterOp → ConvState
  | .input t v => handleInputDom t v s
  | .clearClick => clearResults s

/-- The state reached after a sequence of user operations, oldest first. -/
def runConverterOps (ops : List ConverterOp) : ConvState :=
  ops.foldl convStep initConvState

/-! ## Offline cache manager (sw.js) -/

/-- Cache version identifier (sw.js line 6). -/
def CACHE_NAME : String := "number-converter-v1.0.0"

/-- Name of the static cache partition (sw.js line 7). -/
def STATIC_CACHE_NAME : String := CACHE_NAME ++ "-static"

/-- Name of the dynamic cache partition (sw.js line 8). -/
def DYNAMIC_CACHE_NAME : String := CACHE_NAME ++ "-dynamic"

/-- The enumerated static asset list precached on install (sw.js lines
11-20). -/
def STATIC_FILES : List String :=
  ["/", "/index.html", "/styles/main.css", "/js/converter.js", "/js/app.js",
    "/manifest.json", "/icons/icon-192x192.png", "/icons/icon-512x512.png"]

/-- Maximum number of dynamic cache entries (sw.js line 23). -/
def MAX_DYNAMIC_CACHE_SIZE : Nat := 50

/-- cache.addAll(STATIC_FILES) given which asset URLs fetch successfully:
rejects if any listed asset fails to fetch, else stores them all (the Cache
API batch operation). -/
def cacheAddAll (fetchOk : String → Bool) (files : List String) :
    Except String (List String) :=
  if files.all fetchOk then .ok files else .error "precache fetch failed"

/-- The promise chain built inside event.waitUntil by the install listener
(sw.js lines 31-43) before its final catch: open the static cache, addAll the
static files, then self.skipWaiting(). -/
def installInnerPromise (fetchOk : String → Bool) : Except String Unit :=
  match cacheAddAll fetchOk STATIC_FILES with
  | .ok _ => .ok ()
  | .error e => .error e

/-- Whether the chain reached the self.skipWaiting() call (sw.js line 38):
only on a fulfilled addAll. -/
def installSkipWaitingCalled (fetchOk : String → Bool) : Bool :=
  match cacheAddAll fetchOk STATIC_FILES with
  | .ok _ => true
  | .error _ => false

/-- The promise actually passed to event.waitUntil: the chain above with its
trailing .catch (sw.js lines 40-42), whose handler only logs and returns
undefined, turning any rejection into fulfilment. -/
def installWaitUntilPromise (fetchOk : String → Bool) : Except String Unit :=
  match installInnerPromise fetchOk with
  | .ok _ => .ok ()
  | .error _ => .ok ()

/-- Observable actions of the activate listener, in execution order. -/
inductive SwEvent where
  | deleteCache (name : String)
  | claimClients
deriving DecidableEq, Repr

/-- The guard of the activate listener's deletion loop (sw.js line 57): a
cache name survives iff it is the current static or dynamic partition name. -/
def isCurrentCacheName (name : String) : Bool :=
  name == STATIC_CACHE_NAME || name == DYNAMIC_CACHE_NAME

/-- Trace of the activate listener (sw.js lines 49-71): Promise.all of
caches.delete over every cache name that is not the current static or
dynamic name, then self.clients.claim(). -/
def activateTrace (cacheNames : List String) : List SwEvent :=
  ((cacheNames.filter (fun n => !isCurrentCacheName n)).map .deleteCache) ++
    [.claimClients]

/-- The cache partitions still present after the activate listener ran over
the given list of existing cache names. -/
def activateRemaining (cacheNames : List String) : List String :=
  cacheNames.filter isCurrentCacheName

/-- What the fetch listener responds with (sw.js lines 87-134). -/
inductive RespondResult (ρ : Type) where
  | cached (r : ρ)
  | network (r : ρ)
  | indexFallback (r : Option ρ)
  | offlinePlaceholder (status : Nat) (contentType : String) (body : String)
deriving DecidableEq, Repr

/-- The respondWith promise of the fetch listener for one same-origin GET
request (sw.js lines 87-134): serve a cache match if any; otherwise fetch
from the network and return that response; on network failure return the
cache's entry for /index.html when the request destination is document, else
a synthesized 408 text/plain offline placeholder.  The trailing network
.catch means the handler itself never rejects. -/
def fetchRespond {ρ : Type} (cacheMatch : String → Option ρ)
    (network : Except String ρ) (url : String) (isDocument : Bool) :
    Except String (RespondResult ρ) :=
  match cacheMatch url with
  | some r => .ok (.cached r)
  | none =>
      match network with
      | .ok r => .ok (.network r)
      | .error _ =>
          if isDocument then .ok (.indexFallback (cacheMatch "/index.html"))
          else .ok (.offlinePlaceholder 408 "text/plain"
            "Offline - This resource is not available")

/-- cache.put(request, response): overwrite the entry of an existing key in
place, else append the new entry (keys() reports entries in insertion
order). -/
def cachePut {α β : Type} [BEq α] (c : List (α × β)) (k : α) (v : β) :
    List (α × β) :=
  if c.any (fun e => e.1 == k) then
    c.map (fun e => if e.1 == k then (k, v) else e)
  else c ++ [(k, v)]

/-- The promise chain inside limitCacheSize (sw.js lines 220-234) up to its
catch.  The first .then callback binds the opened cache and returns
cache.keys(); the second .then callback receives only the keys, yet its body
reads the identifier cache again (sw.js line 227) - no binding named cache is
in scope there, so entering the keys.length > maxSize branch throws a
ReferenceError, rejecting the chain before any delete can be issued. -/
def limitCacheSizePass {α β : Type} (c : List (α × β)) (maxSize : Nat) :
    Except String (List (α × β)) :=
  let keys := c.map Prod.fst
  if keys.length > maxSize then .error "ReferenceError: cache is not defined"
  else .ok c

/-- limitCacheSize as observed by the cache state: the chain above with its
trailing .catch (sw.js lines 231-233), which only logs.  Either branch leaves
the cache contents untouched. -/
def limitCacheSize {α β : Type} (c : List (α × β)) (maxSize : Nat) :
    List (α × β) :=
  match limitCacheSizePass c maxSize with
  | .ok c' => c'
  | .error _ => c

/-- One dynamic-cache insertion as performed by the fetch listener on a
valid network response (sw.js lines 107-114): cache.put followed by
limitCacheSize(DYNAMIC_CACHE_NAME, MAX_DYNAMIC_CACHE_SIZE). -/
def dynamicCacheInsert {α β : Type} [BEq α] (c : List (α × β)) (k : α)
    (v : β) : List (α × β) :=
  limitCacheSize (cachePut c k v) MAX_DYNAMIC_CACHE_SIZE

/-- The dynamic cache after a sequence of insertions, oldest first. -/
def dynamicCacheInsertAll {α β : Type} [BEq α] (c : List (α × β))
    (inserts : List (α × β)) : List (α × β) :=
  inserts.foldl (fun acc e => dynamicCacheInsert acc e.1 e.2) c

/-! ## Derived notions used by the statements -/

/-- The digit loop with the canonical fuel bound; jsNatToString agrees with
it (lemma jsNatToString_eq_canon below). -/
def toDigitsCanon (base n : Nat) : List Char :=
  toDigitsFuel (n + 1) base n

/-- Strip leading zero digits. -/
def dropLeadingZeros (s : List Char) : List Char :=
  s.dropWhile (fun c => c == '0')

/-- Case and leading-zero normalization of a numeral, the equivalence the
spec's round-trip law is stated up to: lowercase the digits, drop leading
zeros, and read an all-zero numeral as the single digit zero. -/
def normalizeNumeral (s : List Char) : List Char :=
  let y := dropLeadingZeros (s.map jsToLowerChar)
  if y.isEmpty then ['0'] else y

/-- The text shown in the result field of a given number system. -/
def sourceFieldText (t : SourceType) (s : ConvState) : List Char :=
  match t with
  | .binary => s.binaryR.text
  | .octal => s.octalR.text
  | .decimal => s.decimalR.text
  | .hexadecimal => s.hexadecimalR.text

/-- A digit character whose parseInt value re-renders (lowercased) to the
character itself - what the round-trip argument needs from each digit. -/
def goodDigit (base : Nat) (c : Char) : Prop :=
  digitVal c < base ∧ toStringDigitChar (digitVal c) = jsToLowerChar c

/-- The four result fields display a successful conversion: they carry the
four renderings of one decimal value, with no error class. -/
def displaysSuccess (s : ConvState) : Prop :=
  ∃ n : Nat,
    s.binaryR = ⟨jsNatToString 2 n, false⟩ ∧
    s.octalR = ⟨jsNatToString 8 n, false⟩ ∧
    s.decimalR = ⟨jsNatToString 10 n, false⟩ ∧
    s.hexadecimalR = ⟨(jsNatToString 16 n).map jsToUpperChar, false⟩

/-- A fetch-success oracle under which exactly the /index.html asset fails -
the concrete scenario of the install-failure analysis. -/
def failIndexFetch : String → Bool :=
  fun url => !(url == "/index.html")

/-! ## Character-level lemmas -/

theorem charLe_toNat {a b : Char} (h : a ≤ b) : a.toNat ≤ b.toNat := h

theorem char_toNat_ofNat (n : Nat) (h : n < 55296) :
    (Char.ofNat n).toNat = n := by
  have hv : n.isValidChar := Or.inl h
  simp [Char.ofNat, hv, Char.ofNatAux, Char.toNat]
  rfl

theorem char_eq_of_toNat {a b : Char} (h : a.toNat = b.toNat) : a = b := by
  apply Char.ext
  exact UInt32.ext h

theorem char_ofNat_toNat (c : Char) (h : c.toNat < 55296) :
    Char.ofNat c.toNat = c :=
  char_eq_of_toNat (char_toNat_ofNat c.toNat h)

/-- Characters accepted by any of the validation regexes lie in the ASCII
band from the digit zero to lowercase f. -/
theorem validChar_bounds (t : SourceType) (c : Char)
    (h : validChar t c = true) : 48 ≤ c.toNat ∧ c.toNat ≤ 102 := by
  cases t <;>
    simp only [validChar, Bool.or_eq_true, Bool.and_eq_true, beq_iff_eq,
      decide_eq_true_eq] at h
  · rcases h with rfl | rfl <;> decide
  · have h1 := charLe_toNat h.1
    have h2 := charLe_toNat h.2
    rw [show ('0' : Char).toNat = 48 from by decide] at h1
    rw [show ('7' : Char).toNat = 55 from by decide] at h2
    omega
  · have h1 := charLe_toNat h.1
    have h2 := charLe_toNat h.2
    rw [show ('0' : Char).toNat = 48 from by decide] at h1
    rw [show ('9' : Char).toNat = 57 from by decide] at h2
    omega
  · rcases h with (h | h) | h
    · have h1 := charLe_toNat h.1
      have h2 := charLe_toNat h.2
      rw [show ('0' : Char).toNat = 48 from by decide] at h1
      rw [show ('9' : Char).toNat = 57 from by decide] at h2
      omega
    · have h1 := charLe_toNat h.1
      have h2 := charLe_toNat h.2
      rw [show ('A' : Char).toNat = 65 from by decide] at h1
      rw [show ('F' : Char).toNat = 70 from by decide] at h2
      omega
    · have h1 := charLe_toNat h.1
      have h2 := charLe_toNat h.2
      rw [show ('a' : Char).toNat = 97 from by decide] at h1
      rw [show ('f' : Char).toNat = 102 from by decide] at h2
      omega

/-- All the per-character facts the converter proofs need about a character
accepted by a validation regex. -/
theorem validChar_facts (t : SourceType) (c : Char)
    (h : validChar t c = true) :
    digitVal c < radixOf t ∧
    toStringDigitChar (digitVal c) = jsToLowerChar c ∧
    jsIsWhitespace c = false ∧
    validChar t (jsToUpperChar c) = true ∧
    digitVal (jsToUpperChar c) = digitVal c ∧
    jsToUpperChar (jsToUpperChar c) = jsToUpperChar c ∧
    jsToLowerChar (jsToUpperChar c) = jsToLowerChar c := by
  obtain ⟨hb1, hb2⟩ := validChar_bounds t c h
  have hofn : Char.ofNat c.toNat = c := char_ofNat_toNat c (by omega)
  revert h
  rw [← hofn]
  revert hb1 hb2
  generalize c.toNat = k
  intro hb1 hb2 h
  cases t <;> interval_cases k <;> revert h <;> decide

/-- Per-digit facts about the toString digit alphabet, for digit values below
the largest radix parseInt and toString accept. -/
theorem toStringDigitChar_facts (d : Nat) (hd : d < 36) :
    jsToLowerChar (toStringDigitChar d) = toStringDigitChar d ∧
    jsToLowerChar (jsToUpperChar (toStringDigitChar d)) = toStringDigitChar d ∧
    (d ≠ 0 → toStringDigitChar d ≠ '0') := by
  interval_cases d <;> decide

/-! ## The digit loop -/

theorem toDigitsFuel_zero (f base : Nat) : toDigitsFuel f base 0 = [] := by
  cases f <;> simp [toDigitsFuel]

/-- The fuel argument is irrelevant as soon as it is at least the value being
rendered. -/
theorem toDigitsFuel_congr (base : Nat) (hb : 2 ≤ base) :
    ∀ f g n, n ≤ f → n ≤ g → toDigitsFuel f base n = toDigitsFuel g base n := by
  intro f
  induction f with
  | zero =>
    intro g n hf _
    have hn : n = 0 := by omega
    subst hn
    rw [toDigitsFuel_zero, toDigitsFuel_zero]
  | succ f ih =>
    intro g n hf hg
    by_cases hn : n = 0
    · subst hn
      rw [toDigitsFuel_zero, toDigitsFuel_zero]
    · cases g with
      | zero => omega
      | succ g =>
        have hdiv : n / base < n := Nat.div_lt_self (by omega) hb
        show toDigitsFuel (f + 1) base n = toDigitsFuel (g + 1) base n
        simp only [toDigitsFuel, if_neg hn]
        rw [ih g (n / base) (by omega) (by omega)]

theorem toDigitsCanon_zero (base : Nat) : toDigitsCanon base 0 = [] := by
  simp [toDigitsCanon, toDigitsFuel]

/-- Recurrence of the canonical digit loop: split off the least significant
digit. -/
theorem toDigitsCanon_rec (base n : Nat) (hb : 2 ≤ base) (hn : n ≠ 0) :
    toDigitsCanon base n =
      toDigitsCanon base (n / base) ++ [toStringDigitChar (n % base)] := by
  have heq : toDigitsCanon base n =
      if n = 0 then []
      else toDigitsFuel n base (n / base) ++ [toStringDigitChar (n % base)] :=
    rfl
  rw [heq, if_neg hn,
    toDigitsFuel_congr base hb n (n / base + 1) (n / base)
      (Nat.div_le_self n base) (Nat.le_succ _)]
  rfl

theorem toDigitsCanon_ne_nil (base n : Nat) (hb : 2 ≤ base) (hn : n ≠ 0) :
    toDigitsCanon base n ≠ [] := by
  rw [toDigitsCanon_rec base n hb hn]
  simp

theorem jsNatToString_eq_canon (base n : Nat) (hb : 2 ≤ base) :
    jsNatToString base n = if n = 0 then ['0'] else toDigitsCanon base n := by
  unfold jsNatToString
  by_cases hn : n = 0
  · simp [hn]
  · rw [if_neg hn, if_neg hn,
      toDigitsFuel_congr base hb n (n + 1) n (Nat.le_refl _) (Nat.le_succ _)]
    rfl

theorem toDigitsFuel_mem (base : Nat) (hb : 2 ≤ base) :
    ∀ f n c, c ∈ toDigitsFuel f base n →
      ∃ d, d < base ∧ c = toStringDigitChar d := by
  intro f
  induction f with
  | zero => intro n c hc; simp [toDigitsFuel] at hc
  | succ f ih =>
    intro n c hc
    by_cases hn : n = 0
    · subst hn
      simp [toDigitsFuel] at hc
    · simp only [toDigitsFuel, if_neg hn, List.mem_append,
        List.mem_singleton] at hc
      rcases hc with hc | rfl
      · exact ih _ _ hc
      · exact ⟨n % base, Nat.mod_lt n (by omega), rfl⟩

/-- Every character of a rendering is a digit character of the radix. -/
theorem jsNatToString_mem (base n : Nat) (c : Char) (hb : 2 ≤ base)
    (hc : c ∈ jsNatToString base n) :
    ∃ d, d < base ∧ c = toStringDigitChar d := by
  unfold jsNatToString at hc
  by_cases hn : n = 0
  · rw [if_pos hn] at hc
    simp at hc
    exact ⟨0, by omega, by rw [hc]; decide⟩
  · rw [if_neg hn] at hc
    exact toDigitsFuel_mem base hb n n c hc

/-! ## Trimming and dropWhile -/

theorem dropWhile_of_forall_false {p : Char → Bool} {l : List Char}
    (h : ∀ c ∈ l, p c = false) : l.dropWhile p = l := by
  cases l with
  | nil => rfl
  | cons a as =>
    rw [List.dropWhile_cons_of_neg (by simp [h a (by simp)])]

theorem jsTrim_of_no_ws {v : List Char}
    (h : ∀ c ∈ v, jsIsWhitespace c = false) : jsTrim v = v := by
  unfold jsTrim
  rw [dropWhile_of_forall_false h,
    dropWhile_of_forall_false (fun c hc => h c (List.mem_reverse.mp hc)),
    List.reverse_reverse]

theorem dropWhile_head_false (p : Char → Bool) :
    ∀ (l : List Char) (x : Char) (xs : List Char),
      l.dropWhile p = x :: xs → p x = false := by
  intro l
  induction l with
  | nil => intro x xs h; simp [List.dropWhile] at h
  | cons a as ih =>
    intro x xs h
    by_cases ha : p a = true
    · rw [List.dropWhile_cons_of_pos ha] at h
      exact ih x xs h
    · rw [List.dropWhile_cons_of_neg ha] at h
      cases h
      simpa using ha

theorem dropWhile_idem (p : Char → Bool) (l : List Char) :
    (l.dropWhile p).dropWhile p = l.dropWhile p := by
  rcases he : l.dropWhile p with _ | ⟨x, xs⟩
  · rfl
  · rw [List.dropWhile_cons_of_neg (by simp [dropWhile_head_false p l x xs he])]

theorem map_id_of_forall {f : Char → Char} {l : List Char}
    (h : ∀ x ∈ l, f x = x) : l.map f = l := by
  rw [List.map_congr_left h]
  simp

/-! ## The parse / render round trip -/

theorem parseIntDigits_snoc (base : Nat) (ds : List Char) (c : Char) :
    parseIntDigits base (ds ++ [c]) =
      parseIntDigits base ds * base + digitVal c := by
  simp [parseIntDigits]

/-- Core round-trip identity: rendering the parse of a digit string recovers
the lowercased digit string with its leading zeros removed. -/
theorem roundtrip_digits (base : Nat) (hb : 2 ≤ base) (hb36 : base ≤ 36)
    (ds : List Char) :
    (∀ c ∈ ds, goodDigit base c) →
      toDigitsCanon base (parseIntDigits base ds) =
        dropLeadingZeros (ds.map jsToLowerChar) := by
  induction ds using List.reverseRecOn with
  | nil =>
    intro _
    simp [parseIntDigits, dropLeadingZeros, toDigitsCanon_zero]
  | append_singleton ds c ih =>
    intro hds
    obtain ⟨hdlt, hdchar⟩ := hds c (by simp)
    have hih := ih (fun x hx => hds x (by simp [hx]))
    rw [parseIntDigits_snoc, List.map_append]
    by_cases hz : parseIntDigits base ds * base + digitVal c = 0
    · have hm0 : parseIntDigits base ds = 0 := by
        rcases Nat.mul_eq_zero.mp (by omega : parseIntDigits base ds * base = 0)
          with h | h
        · exact h
        · omega
      have hd0 : digitVal c = 0 := by omega
      have hlow : jsToLowerChar c = '0' := by
        rw [← hdchar, hd0]
        decide
      rw [hm0, toDigitsCanon_zero] at hih
      rw [hz, toDigitsCanon_zero]
      symm
      unfold dropLeadingZeros at hih ⊢
      refine List.dropWhile_eq_nil_iff.mpr ?_
      intro y hy
      rcases List.mem_append.mp hy with hy | hy
      · exact List.dropWhile_eq_nil_iff.mp hih.symm y hy
      · rcases List.mem_singleton.mp hy with rfl
        simp [hlow]
    · rw [toDigitsCanon_rec base _ hb hz]
      have hdivb : (parseIntDigits base ds * base + digitVal c) / base =
          parseIntDigits base ds := by
        rw [Nat.mul_comm, Nat.mul_add_div (by omega),
          Nat.div_eq_of_lt hdlt]
        omega
      have hmodb : (parseIntDigits base ds * base + digitVal c) % base =
          digitVal c := by
        rw [Nat.mul_comm, Nat.mul_add_mod, Nat.mod_eq_of_lt hdlt]
      rw [hdivb, hmodb, hih]
      unfold dropLeadingZeros
      rw [List.dropWhile_append]
      by_cases hm0 : parseIntDigits base ds = 0
      · have hihz : List.dropWhile (fun x => x == '0')
            (ds.map jsToLowerChar) = [] := by
          have h' := hih
          rw [hm0, toDigitsCanon_zero] at h'
          unfold dropLeadingZeros at h'
          exact h'.symm
        have hd0 : digitVal c ≠ 0 := fun h => hz (by rw [hm0, h]; ring)
        have hnz : jsToLowerChar c ≠ '0' := by
          rw [← hdchar]
          exact (toStringDigitChar_facts (digitVal c) (by omega)).2.2 hd0
        rw [hihz]
        simp [hdchar, hnz]
      · have hne : List.dropWhile (fun x => x == '0')
            (ds.map jsToLowerChar) ≠ [] := by
          intro hcon
          apply toDigitsCanon_ne_nil base _ hb hm0
          rw [hih]
          unfold dropLeadingZeros
          exact hcon
        rw [if_neg (by simpa using hne)]
        simp [hdchar]

/-- All characters of a rendering are fixed by lowercasing. -/
theorem map_lower_render (base n : Nat) (hb : 2 ≤ base) (hb36 : base ≤ 36) :
    (jsNatToString base n).map jsToLowerChar = jsNatToString base n := by
  refine map_id_of_forall ?_
  intro x hx
  obtain ⟨d, hd, rfl⟩ := jsNatToString_mem base n x hb hx
  exact (toStringDigitChar_facts d (by omega)).1

/-- Uppercasing then lowercasing a rendering lowercases it to itself. -/
theorem map_lower_upper_render (base n : Nat) (hb : 2 ≤ base)
    (hb36 : base ≤ 36) :
    ((jsNatToString base n).map jsToUpperChar).map jsToLowerChar =
      jsNatToString base n := by
  rw [List.map_map]
  refine map_id_of_forall ?_
  intro x hx
  obtain ⟨d, hd, rfl⟩ := jsNatToString_mem base n x hb hx
  exact (toStringDigitChar_facts d (by omega)).2.1

/-- Uppercasing a rendering does not change its normalization. -/
theorem normalizeNumeral_map_upper_render (base n : Nat) (hb : 2 ≤ base)
    (hb36 : base ≤ 36) :
    normalizeNumeral ((jsNatToString base n).map jsToUpperChar) =
      normalizeNumeral (jsNatToString base n) := by
  unfold normalizeNumeral
  rw [map_lower_upper_render base n hb hb36, map_lower_render base n hb hb36]

/-- Uppercasing a valid input does not change its normalization. -/
theorem normalizeNumeral_upper_valid (t : SourceType) (v : List Char)
    (hall : ∀ c ∈ v, validChar t c = true) :
    normalizeNumeral (v.map jsToUpperChar) = normalizeNumeral v := by
  unfold normalizeNumeral
  rw [List.map_map]
  have hmaps : v.map (jsToLowerChar ∘ jsToUpperChar) = v.map jsToLowerChar :=
    List.map_congr_left
      (fun c hc => (validChar_facts t c (hall c hc)).2.2.2.2.2.2)
  rw [hmaps]

/-- Normalized rendering of the parse of a good digit string equals the
normalization of the string itself: the round-trip law up to case and
leading-zero normalization. -/
theorem normalize_render (base : Nat) (hb : 2 ≤ base) (hb36 : base ≤ 36)
    (ds : List Char) (hds : ∀ c ∈ ds, goodDigit base c) :
    normalizeNumeral (jsNatToString base (parseIntDigits base ds)) =
      normalizeNumeral ds := by
  have hrt := roundtrip_digits base hb hb36 ds hds
  by_cases hn : parseIntDigits base ds = 0
  · rw [hn, toDigitsCanon_zero] at hrt
    unfold normalizeNumeral
    rw [hn, show jsNatToString base 0 = ['0'] from rfl, ← hrt]
    decide
  · rw [jsNatToString_eq_canon base _ hb, if_neg hn, hrt]
    unfold normalizeNumeral
    have hsub : (dropLeadingZeros (ds.map jsToLowerChar)).map jsToLowerChar =
        dropLeadingZeros (ds.map jsToLowerChar) := by
      refine map_id_of_forall ?_
      intro x hx
      unfold dropLeadingZeros at hx
      have hx' : x ∈ ds.map jsToLowerChar := List.dropWhile_subset _ hx
      obtain ⟨y, _, rfl⟩ := List.mem_map.mp hx'
      obtain ⟨hd1, hd2⟩ := hds y (by assumption)
      rw [← hd2]
      exact (toStringDigitChar_facts (digitVal y) (by omega)).1
    rw [hsub]
    unfold dropLeadingZeros
    rw [dropWhile_idem]

/-! ## Behaviour of handleInput -/

theorem radixOf_ge_two (t : SourceType) : 2 ≤ radixOf t := by
  cases t <;> decide

theorem radixOf_le_36 (t : SourceType) : radixOf t ≤ 36 := by
  cases t <;> decide

theorem validChar_goodDigit (t : SourceType) (c : Char)
    (h : validChar t c = true) : goodDigit (radixOf t) c :=
  ⟨(validChar_facts t c h).1, (validChar_facts t c h).2.1⟩

/-- On a non-empty all-valid value, handleInput converts, with the parse of
the uppercased value as the decimal intermediate. -/
theorem handleInput_valid (t : SourceType) (v : List Char) (hne : v ≠ [])
    (hall : ∀ c ∈ v, validChar t c = true) :
    handleInput t v =
      .converted (parseIntDigits (radixOf t) (v.map jsToUpperChar)) := by
  have htrim : jsTrim v = v :=
    jsTrim_of_no_ws (fun c hc => (validChar_facts t c (hall c hc)).2.2.1)
  have hmapne : (v.map jsToUpperChar).isEmpty = false := by
    cases v with
    | nil => exact absurd rfl hne
    | cons a as => rfl
  have hmatch : matchesPattern t (v.map jsToUpperChar) = true := by
    unfold matchesPattern
    rw [hmapne]
    simp only [Bool.not_false, Bool.true_and, List.all_eq_true]
    intro c hc
    obtain ⟨y, hy, rfl⟩ := List.mem_map.mp hc
    exact (validChar_facts t y (hall y hy)).2.2.2.1
  simp only [handleInput]
  rw [htrim, hmapne, if_neg (by simp), if_pos hmatch,
    if_neg (Nat.not_lt_zero _)]

/-- A value that trims to the empty string makes handleInput clear. -/
theorem handleInput_empty (t : SourceType) (v : List Char)
    (h : jsTrim v = []) : handleInput t v = .cleared := by
  unfold handleInput
  rw [h]
  rfl

/-- A value whose trimmed, uppercased form is non-empty but fails the radix
regex makes handleInput error. -/
theorem handleInput_invalid (t : SourceType) (v : List Char)
    (hne : (jsTrim v).map jsToUpperChar ≠ [])
    (hmatch : matchesPattern t ((jsTrim v).map jsToUpperChar) = false) :
    handleInput t v = .errored := by
  have hne' : ((jsTrim v).map jsToUpperChar).isEmpty = false := by
    rcases he : (jsTrim v).map jsToUpperChar with _ | ⟨a, as⟩
    · exact absurd he hne
    · rfl
  simp only [handleInput]
  rw [hne', if_neg (by simp), if_neg (by simp [hmatch])]

/-! ## Claim theorems: the converter -/

/-- C1: for every source radix tag and every trimmed, case-normalized input
string matching the radix's legal alphabet, handleInput parses the string to
an unsigned integer and renders that one integer in all four radixes
(hexadecimal uppercase); in particular binary 1010 yields decimal 10, octal
12, hexadecimal A, and decimal 493 yields octal 755. -/
theorem handleInput_renders_all_radixes (t : SourceType) (v : List Char)
    (htrim : jsTrim v = v) (hupper : v.map jsToUpperChar = v)
    (hmatch : matchesPattern t v = true) :
    (handleInput t v = .converted (parseIntDigits (radixOf t) v) ∧
     ∀ st : ConvState,
       (handleInputDom t v st).binaryR.text =
         jsNatToString 2 (parseIntDigits (radixOf t) v) ∧
       (handleInputDom t v st).octalR.text =
         jsNatToString 8 (parseIntDigits (radixOf t) v) ∧
       (handleInputDom t v st).decimalR.text =
         jsNatToString 10 (parseIntDigits (radixOf t) v) ∧
       (handleInputDom t v st).hexadecimalR.text =
         (jsNatToString 16 (parseIntDigits (radixOf t) v)).map
           jsToUpperChar) ∧
    (handleInputDom .binary "1010".data initConvState).decimalR.text =
      "10".data ∧
    (handleInputDom .binary "1010".data initConvState).octalR.text =
      "12".data ∧
    (handleInputDom .binary "1010".data initConvState).hexadecimalR.text =
      "A".data ∧
    (handleInputDom .decimal "493".data initConvState).octalR.text =
      "755".data := by
  have hne : v ≠ [] := by
    intro h
    subst h
    simp [matchesPattern] at hmatch
  have hall : ∀ c ∈ v, validChar t c = true := by
    have h' := hmatch
    simp only [matchesPattern, Bool.and_eq_true, List.all_eq_true] at h'
    exact h'.2
  have hconv : handleInput t v = .converted (parseIntDigits (radixOf t) v) := by
    have h' := handleInput_valid t v hne hall
    rwa [hupper] at h'
  refine ⟨⟨hconv, ?_⟩, by decide, by decide, by decide, by decide⟩
  intro st
  simp only [handleInputDom, hconv]
  exact ⟨rfl, rfl, rfl, rfl⟩

theorem handleInput_renders_all_radixes_witness :
    (jsTrim "755".data = "755".data ∧
     ("755".data).map jsToUpperChar = "755".data ∧
     matchesPattern .octal "755".data = true) ∧
    handleInput .octal "755".data =
      .converted (parseIntDigits (radixOf .octal) "755".data) :=
  ⟨⟨by decide, by decide, by decide⟩,
    (handleInput_renders_all_radixes .octal "755".data (by decide) (by decide)
      (by decide)).1.1⟩

/-- C2: for every radix and every valid non-empty input string, parsing to
the decimal intermediate and re-rendering in the source radix reproduces the
input up to case and leading-zero normalization. -/
theorem conversion_round_trip (t : SourceType) (v : List Char)
    (st : ConvState) (hmatch : matchesPattern t v = true) :
    normalizeNumeral (sourceFieldText t (handleInputDom t v st)) =
      normalizeNumeral v := by
  have hne : v ≠ [] := by
    intro h
    subst h
    simp [matchesPattern] at hmatch
  have hall : ∀ c ∈ v, validChar t c = true := by
    simp only [matchesPattern, Bool.and_eq_true, List.all_eq_true] at hmatch
    exact hmatch.2
  have hconv := handleInput_valid t v hne hall
  have hallup : ∀ c ∈ v.map jsToUpperChar, validChar t c = true := by
    intro c hc
    obtain ⟨y, hy, rfl⟩ := List.mem_map.mp hc
    exact (validChar_facts t y (hall y hy)).2.2.2.1
  have hgood : ∀ c ∈ v.map jsToUpperChar, goodDigit (radixOf t) c :=
    fun c hc => validChar_goodDigit t c (hallup c hc)
  have hnr := normalize_render (radixOf t) (radixOf_ge_two t)
    (radixOf_le_36 t) (v.map jsToUpperChar) hgood
  have hupv := normalizeNumeral_upper_valid t v hall
  simp only [handleInputDom, hconv]
  cases t with
  | binary => exact hnr.trans hupv
  | octal => exact hnr.trans hupv
  | decimal => exact hnr.trans hupv
  | hexadecimal =>
    have hup := normalizeNumeral_map_upper_render 16
      (parseIntDigits 16 (v.map jsToUpperChar)) (by norm_num) (by norm_num)
    exact hup.trans (hnr.trans hupv)

theorem conversion_round_trip_witness :
    matchesPattern .octal "0755".data = true ∧
    normalizeNumeral
        (sourceFieldText .octal
          (handleInputDom .octal "0755".data initConvState)) =
      normalizeNumeral "0755".data :=
  ⟨by decide,
    conversion_round_trip .octal "0755".data initConvState (by decide)⟩

/-- C5: an input that is empty after trimming clears all four result fields
to the placeholder dash with no error state, not the error marker. -/
theorem empty_input_clears_placeholder (t : SourceType) (v : List Char)
    (st : ConvState) (h : jsTrim v = []) :
    handleInputDom t v st = clearResults st ∧
    (handleInputDom t v st).binaryR = ⟨['-'], false⟩ ∧
    (handleInputDom t v st).octalR = ⟨['-'], false⟩ ∧
    (handleInputDom t v st).decimalR = ⟨['-'], false⟩ ∧
    (handleInputDom t v st).hexadecimalR = ⟨['-'], false⟩ ∧
    (handleInputDom t v st).currentValues = none ∧
    handleInputDom t v st ≠ showConversionError st := by
  have hdom : handleInputDom t v st = clearResults st := by
    simp only [handleInputDom, handleInput_empty t v h]
  refine ⟨hdom, by rw [hdom]; rfl, by rw [hdom]; rfl, by rw [hdom]; rfl,
    by rw [hdom]; rfl, by rw [hdom]; rfl, ?_⟩
  rw [hdom]
  intro heq
  have h2 : (clearResults st).binaryR.text =
      (showConversionError st).binaryR.text := by rw [heq]
  simp only [clearResults, showConversionError] at h2
  exact absurd h2 (by decide)

theorem empty_input_clears_placeholder_witness :
    jsTrim " ".data = [] ∧
    (handleInputDom .binary " ".data initConvState).binaryR =
      ⟨['-'], false⟩ :=
  ⟨by decide,
    (empty_input_clears_placeholder .binary " ".data initConvState
      (by decide)).2.1⟩

/-- Counterexample to C6 as stated: on the empty string handleInput clears
the result fields to the placeholder dash; it does not reject with a
validation error and does not set the error marker. -/
theorem empty_input_not_error_counterexample :
    handleInput .binary [] = .cleared ∧
    handleInput .binary [] ≠ .errored ∧
    (handleInputDom .binary [] initConvState).binaryR.text = ['-'] ∧
    (handleInputDom .binary [] initConvState).binaryR.text ≠ "Error".data ∧
    (handleInputDom .binary [] initConvState).binaryR.hasErrorClass =
      false := by
  decide

/-- C6 (amended): an input whose trimmed, uppercased form is non-empty and
fails the radix's alphabet regex makes handleInput set all four result slots
to the Error marker with the error class, nulling the copy buffer - no slot
keeps a partial result; an input that is empty after trimming instead clears
the slots to the placeholder. -/
theorem invalid_input_error_marker (t : SourceType) (v : List Char)
    (st : ConvState) :
    ((jsTrim v).map jsToUpperChar ≠ [] →
      matchesPattern t ((jsTrim v).map jsToUpperChar) = false →
      handleInputDom t v st = showConversionError st ∧
      (handleInputDom t v st).binaryR = ⟨"Error".data, true⟩ ∧
      (handleInputDom t v st).octalR = ⟨"Error".data, true⟩ ∧
      (handleInputDom t v st).decimalR = ⟨"Error".data, true⟩ ∧
      (handleInputDom t v st).hexadecimalR = ⟨"Error".data, true⟩ ∧
      (handleInputDom t v st).currentValues = none) ∧
    (jsTrim v = [] → handleInputDom t v st = clearResults st) := by
  constructor
  · intro hne hmatch
    have hdom : handleInputDom t v st = showConversionError st := by
      simp only [handleInputDom, handleInput_invalid t v hne hmatch]
    exact ⟨hdom, by rw [hdom]; rfl, by rw [hdom]; rfl, by rw [hdom]; rfl,
      by rw [hdom]; rfl, by rw [hdom]; rfl⟩
  · intro h
    simp only [handleInputDom, handleInput_empty t v h]

theorem invalid_input_error_marker_witness :
    ((jsTrim "2".data).map jsToUpperChar ≠ [] ∧
     matchesPattern .binary ((jsTrim "2".data).map jsToUpperChar) = false) ∧
    (handleInputDom .binary "2".data initConvState).binaryR =
      ⟨"Error".data, true⟩ :=
  ⟨⟨by decide, by decide⟩,
    ((invalid_input_error_marker .binary "2".data initConvState).1
      (by decide) (by decide)).2.1⟩

/-- C9: hexadecimal conversion is case-insensitive: handleInput on a valid
hexadecimal string accepts it and produces the same outcome as on its
uppercased form; in particular lowercase ff yields decimal 255 and binary
11111111. -/
theorem hex_case_insensitive (s : List Char) (hne : s ≠ [])
    (hall : ∀ c ∈ s, validChar .hexadecimal c = true) :
    (∃ n, handleInput .hexadecimal s = .converted n) ∧
    handleInput .hexadecimal s =
      handleInput .hexadecimal (s.map jsToUpperChar) ∧
    (handleInputDom .hexadecimal "ff".data initConvState).decimalR.text =
      "255".data ∧
    (handleInputDom .hexadecimal "ff".data initConvState).binaryR.text =
      "11111111".data := by
  have h1 := handleInput_valid .hexadecimal s hne hall
  have hallup : ∀ c ∈ s.map jsToUpperChar,
      validChar .hexadecimal c = true := by
    intro c hc
    obtain ⟨y, hy, rfl⟩ := List.mem_map.mp hc
    exact (validChar_facts _ y (hall y hy)).2.2.2.1
  have hneup : s.map jsToUpperChar ≠ [] := by
    cases s with
    | nil => exact absurd rfl hne
    | cons a as => simp
  have h2 := handleInput_valid .hexadecimal (s.map jsToUpperChar) hneup hallup
  have hupup : (s.map jsToUpperChar).map jsToUpperChar =
      s.map jsToUpperChar := by
    rw [List.map_map]
    exact List.map_congr_left
      (fun c hc => (validChar_facts _ c (hall c hc)).2.2.2.2.2.1)
  refine ⟨⟨_, h1⟩, ?_, by decide, by decide⟩
  rw [h1, h2, hupup]

theorem hex_case_insensitive_witness :
    ("ff".data ≠ [] ∧ ∀ c ∈ "ff".data, validChar .hexadecimal c = true) ∧
    handleInput .hexadecimal "ff".data =
      handleInput .hexadecimal ("ff".data.map jsToUpperChar) :=
  ⟨⟨by decide, by decide⟩,
    (hex_case_insensitive "ff".data (by decide) (by decide)).2.1⟩

/-! ## Claim theorems: the copy buffer invariant -/

theorem convStep_canonical (s : ConvState) (op : ConverterOp) :
    convStep s op = initConvState ∨
    convStep s op = showConversionError initConvState ∨
    ∃ n, convStep s op = updateResults n initConvState := by
  cases op with
  | clearClick => exact Or.inl rfl
  | input t v =>
    rcases hh : handleInput t v with _ | _ | n
    · exact Or.inl (by simp only [convStep, handleInputDom, hh]; rfl)
    · exact Or.inr (Or.inl (by simp only [convStep, handleInputDom, hh]; rfl))
    · exact Or.inr (Or.inr ⟨n, by simp only [convStep, handleInputDom, hh]; rfl⟩)

theorem runConverterOps_canonical (ops : List ConverterOp) :
    runConverterOps ops = initConvState ∨
    runConverterOps ops = showConversionError initConvState ∨
    ∃ n, runConverterOps ops = updateResults n initConvState := by
  have key : ∀ (l : List ConverterOp) (s : ConvState),
      (s = initConvState ∨ s = showConversionError initConvState ∨
        ∃ n, s = updateResults n initConvState) →
      (l.foldl convStep s = initConvState ∨
        l.foldl convStep s = showConversionError initConvState ∨
        ∃ n, l.foldl convStep s = updateResults n initConvState) := by
    intro l
    induction l with
    | nil => intro s hs; exact hs
    | cons op l ih =>
      intro s _
      exact ih (convStep s op) (convStep_canonical s op)
  exact key ops initConvState (Or.inl rfl)

theorem jsNatToString_two_chars (n : Nat) (c : Char)
    (hc : c ∈ jsNatToString 2 n) : c = '0' ∨ c = '1' := by
  obtain ⟨d, hd, rfl⟩ := jsNatToString_mem 2 n c (by norm_num) hc
  interval_cases d
  · exact Or.inl (by decide)
  · exact Or.inr (by decide)

theorem not_displaysSuccess_init : ¬ displaysSuccess initConvState := by
  rintro ⟨n, hbin, -, -, -⟩
  have htext : ['-'] = jsNatToString 2 n :=
    congrArg FieldState.text hbin
  have hmem : '-' ∈ jsNatToString 2 n := by
    rw [← htext]
    simp
  rcases jsNatToString_two_chars n '-' hmem with h | h <;> exact absurd h (by decide)

theorem not_displaysSuccess_error :
    ¬ displaysSuccess (showConversionError initConvState) := by
  rintro ⟨n, hbin, -, -, -⟩
  have htext : "Error".data = jsNatToString 2 n :=
    congrArg FieldState.text hbin
  have hmem : 'E' ∈ jsNatToString 2 n := by
    rw [← htext]
    simp
  rcases jsNatToString_two_chars n 'E' hmem with h | h <;> exact absurd h (by decide)

/-- C10: after any sequence of page operations, the copy buffer
(currentValues) is non-null exactly when the result fields display a
successful conversion, and whenever it is null - in particular after a
conversion failure or a clear - copyResults reports that there are no
results to copy instead of serializing anything. -/
theorem currentValues_iff_display_success (ops : List ConverterOp) :
    ((runConverterOps ops).currentValues ≠ none ↔
      displaysSuccess (runConverterOps ops)) ∧
    ((runConverterOps ops).currentValues = none →
      copyResults (runConverterOps ops) = .noResults) := by
  have hnull : ∀ s : ConvState,
      s.currentValues = none → copyResults s = .noResults := by
    intro s h
    simp [copyResults, h]
  rcases runConverterOps_canonical ops with h | h | ⟨n, h⟩ <;> rw [h]
  · exact ⟨⟨fun hc => absurd rfl hc,
      fun hd => absurd hd not_displaysSuccess_init⟩, fun _ => hnull _ rfl⟩
  · exact ⟨⟨fun hc => absurd rfl hc,
      fun hd => absurd hd not_displaysSuccess_error⟩, fun _ => hnull _ rfl⟩
  · refine ⟨⟨fun _ => ⟨n, rfl, rfl, rfl, rfl⟩, fun _ => by simp [updateResults]⟩,
      fun hc => ?_⟩
    simp [updateResults] at hc

theorem currentValues_iff_display_success_witness :
    (runConverterOps [.input .binary "2".data]).currentValues = none ∧
    copyResults (runConverterOps [.input .binary "2".data]) = .noResults :=
  ⟨by decide,
    (currentValues_iff_display_success [.input .binary "2".data]).2
      (by decide)⟩

/-! ## Claim theorems: the service worker -/

set_option maxRecDepth 10000 in
/-- C3 (code bug): the eviction pass of limitCacheSize never removes
anything - its second .then callback reads an identifier that is not in
scope, so exceeding the bound throws and the catch swallows it - and hence
51 insertions of distinct keys leave the dynamic partition at 51 entries,
above MAX_DYNAMIC_CACHE_SIZE, with the pass rejecting with the
ReferenceError. -/
theorem limitCacheSize_never_evicts (cache : List (Nat × Nat))
    (maxSize : Nat) :
    limitCacheSize cache maxSize = cache ∧
    (dynamicCacheInsertAll ([] : List (Nat × Nat))
        ((List.range 51).map (fun i => (i, i)))).length = 51 ∧
    MAX_DYNAMIC_CACHE_SIZE < 51 ∧
    limitCacheSizePass
        (dynamicCacheInsertAll ([] : List (Nat × Nat))
          ((List.range 51).map (fun i => (i, i)))) MAX_DYNAMIC_CACHE_SIZE =
      .error "ReferenceError: cache is not defined" := by
  refine ⟨?_, rfl, by decide, rfl⟩
  by_cases h : maxSize < cache.length <;>
    simp [limitCacheSize, limitCacheSizePass, h]

/-- Counterexample to C4 as stated: under a fetch oracle on which the
/index.html asset fails, the inner install chain rejects, yet the promise
handed to event.waitUntil fulfils - the installation is not failed. -/
theorem install_failure_not_propagated_counterexample :
    failIndexFetch "/index.html" = false ∧
    installInnerPromise failIndexFetch = .error "precache fetch failed" ∧
    installWaitUntilPromise failIndexFetch = .ok () :=
  ⟨rfl, rfl, rfl⟩

/-- C4 (amended): if any asset of the static list fails to fetch,
cache.addAll rejects and skipWaiting is never reached, but the install
listener's trailing catch only logs, so the promise passed to
event.waitUntil fulfils and the installation is not aborted. -/
theorem install_failure_swallowed (fetchOk : String → Bool)
    (h : STATIC_FILES.all fetchOk = false) :
    installWaitUntilPromise fetchOk = .ok () ∧
    installInnerPromise fetchOk = .error "precache fetch failed" ∧
    installSkipWaitingCalled fetchOk = false := by
  simp [installWaitUntilPromise, installInnerPromise,
    installSkipWaitingCalled, cacheAddAll, h]

theorem install_failure_swallowed_witness :
    STATIC_FILES.all failIndexFetch = false ∧
    installWaitUntilPromise failIndexFetch = .ok () :=
  ⟨by decide, (install_failure_swallowed failIndexFetch (by decide)).1⟩

/-- C7: the activate listener deletes every cache partition whose name is
neither the current static nor the current dynamic partition name, so no
other (old-version) cache name remains afterwards, and the clients.claim
call is the last event of the trace, strictly after every deletion. -/
theorem activate_purges_old_caches (cacheNames : List String) :
    (∀ n ∈ activateRemaining cacheNames,
      n = STATIC_CACHE_NAME ∨ n = DYNAMIC_CACHE_NAME) ∧
    (∀ old ∈ cacheNames, old ≠ STATIC_CACHE_NAME →
      old ≠ DYNAMIC_CACHE_NAME →
      old ∉ activateRemaining cacheNames ∧
      SwEvent.deleteCache old ∈ activateTrace cacheNames) ∧
    (activateTrace cacheNames).getLast? = some .claimClients ∧
    (∀ e ∈ (activateTrace cacheNames).dropLast,
      e ≠ SwEvent.claimClients) := by
  refine ⟨?_, ?_, ?_, ?_⟩
  · intro n hn
    have h := (List.mem_filter.mp hn).2
    simp only [isCurrentCacheName, Bool.or_eq_true, beq_iff_eq] at h
    exact h
  · intro old hold h1 h2
    constructor
    · intro hc
      have h := (List.mem_filter.mp hc).2
      simp only [isCurrentCacheName, Bool.or_eq_true, beq_iff_eq] at h
      rcases h with h | h
      · exact h1 h
      · exact h2 h
    · unfold activateTrace
      refine List.mem_append.mpr (Or.inl ?_)
      refine List.mem_map.mpr ⟨old, ?_, rfl⟩
      refine List.mem_filter.mpr ⟨hold, ?_⟩
      simp [isCurrentCacheName, h1, h2]
  · exact List.getLast?_concat _
  · intro e he
    unfold activateTrace at he
    rw [List.dropLast_concat] at he
    obtain ⟨_, _, rfl⟩ := List.mem_map.mp he
    simp

theorem activate_purges_old_caches_witness :
    ("number-converter-v0.9.0-static" ∈
        (["number-converter-v0.9.0-static", STATIC_CACHE_NAME,
          DYNAMIC_CACHE_NAME] : List String) ∧
      "number-converter-v0.9.0-static" ≠ STATIC_CACHE_NAME ∧
      "number-converter-v0.9.0-static" ≠ DYNAMIC_CACHE_NAME) ∧
    "number-converter-v0.9.0-static" ∉
      activateRemaining ["number-converter-v0.9.0-static",
        STATIC_CACHE_NAME, DYNAMIC_CACHE_NAME] :=
  ⟨⟨by decide, by decide, by decide⟩,
    ((activate_purges_old_caches ["number-converter-v0.9.0-static",
        STATIC_CACHE_NAME, DYNAMIC_CACHE_NAME]).2.1
      "number-converter-v0.9.0-static" (by decide) (by decide)
      (by decide)).1⟩

/-- C8: for an intercepted request with no cached entry whose network fetch
fails, the handler fulfils (never rejects): for a document destination it
returns the cache's entry for /index.html, otherwise a synthesized 408
text/plain offline placeholder. -/
theorem fetch_network_failure_fallback (ρ : Type)
    (cacheMatch : String → Option ρ) (e url : String)
    (hmiss : cacheMatch url = none) :
    fetchRespond cacheMatch (.error e) url true =
      .ok (.indexFallback (cacheMatch "/index.html")) ∧
    fetchRespond cacheMatch (.error e) url false =
      .ok (.offlinePlaceholder 408 "text/plain"
        "Offline - This resource is not available") := by
  constructor <;> simp [fetchRespond, hmiss]

theorem fetch_network_failure_fallback_witness :
    (fun u : String =>
        if u == "/index.html" then some (7 : Nat) else none) "/app.js" =
      none ∧
    fetchRespond
        (fun u : String =>
          if u == "/index.html" then some (7 : Nat) else none)
        (.error "network down") "/app.js" false =
      .ok (.offlinePlaceholder 408 "text/plain"
        "Offline - This resource is not available") :=
  ⟨by decide,
    (fetch_network_failure_fallback Nat
      (fun u => if u == "/index.html" then some 7 else none)
      "network down" "/app.js" (by decide)).2⟩

